import Mathlib

/-!
Shallow embedding of the EOF v1 container validator from
`packages/evm/src/eof.ts` of the ethereumjs monorepo excerpt.

Modelling conventions:
* a JS `Buffer` of bytes is a `List Nat` (each entry a byte value 0..255);
* `Buffer` bracket indexing (`code[i]`), which yields `undefined` out of
  range, is modelled as `List.getD code i 256`: the sentinel 256 compares
  unequal to every byte value, exactly as `undefined` does in the `!==`
  sentinel checks of the source;
* the asserting reads `readUint8` / `readUint16BE` / `readInt16BE`, which
  throw `ERR_OUT_OF_RANGE` when the read would step past the end of the
  buffer, are modelled as `Option`-valued functions, `none` = exception;
* `validateCode` returns `Option Bool`: `some b` is a normal boolean
  return, `none` is a propagated exception;
* the opcode table `handlers` is imported from `./opcodes`, a module that
  is not part of this excerpt; the validator only needs key-membership
  queries on it, so every function that consumes it takes an explicit
  `defined : Nat → Bool` parameter (the characteristic function of
  `handlers.keys()`).
-/

/-- Byte sequence, one `Nat` (0..255) per byte. -/
abbrev ByteCode := List Nat

/-- Constant `KIND_TYPE = 1` from the source. -/
def KIND_TYPE : Nat := 1

/-- Constant `KIND_CODE = 2` from the source. -/
def KIND_CODE : Nat := 2

/-- Constant `KIND_DATA = 3` from the source. -/
def KIND_DATA : Nat := 3

/-- Constant `TERMINATOR = 0` from the source. -/
def TERMINATOR : Nat := 0

/-- `Buffer.prototype.readUint8`: one byte, throws (`none`) out of range. -/
def readUint8 (code : ByteCode) (i : Nat) : Option Nat :=
  code.get? i

/-- `Buffer.prototype.readUint16BE`: big-endian u16, throws (`none`) when
fewer than two bytes are available at `i`. -/
def readUint16BE (code : ByteCode) (i : Nat) : Option Nat :=
  match code.get? i, code.get? (i + 1) with
  | some a, some b => some (a * 256 + b)
  | _, _ => none

/-- `Buffer.prototype.readInt16BE`: big-endian signed 16-bit value,
throws (`none`) when fewer than two bytes are available at `i`. -/
def readInt16BE (code : ByteCode) (i : Nat) : Option Int :=
  match code.get? i, code.get? (i + 1) with
  | some a, some b =>
    some (if a * 256 + b ≥ 0x8000 then ((a * 256 + b : Nat) : Int) - 0x10000
          else ((a * 256 + b : Nat) : Int))
  | _, _ => none

/-- Source `isEOFCode`: `code.slice(0, 2).equals(MAGIC)` with
`MAGIC = EF 00`.  A buffer shorter than two bytes slices to a shorter
buffer, which is unequal to the two-byte magic. -/
def isEOFCode (code : ByteCode) : Bool :=
  code.take 2 == [0xef, 0x00]

/-- Source `getEOFVersion` composed with the internal `_getEOFVersion`:
returns 0 for non-EOF input, else `code[2]`.  The bracket read `code[2]`
is `undefined` when the buffer has fewer than 3 bytes, hence the
`Option Nat` result (`none` = `undefined`). -/
def getEOFVersion (code : ByteCode) : Option Nat :=
  if isEOFCode code = false then some 0
  else code.get? 2

/-- The allowed-opcode set built at the top of source `checkOpcodes`:
`new Set(handlers.keys())`, then `add(0xfe)`, `delete(0x58)`,
`delete(0xff)`, `delete(0xf2)`. -/
def allowedOpcode (defined : Nat → Bool) (op : Nat) : Bool :=
  (defined op || op == 0xfe) && !(op == 0x58 || op == 0xff || op == 0xf2)

/-- The terminating-opcode set of source `checkOpcodes`:
`{0x00, 0xf3, 0xfd, 0xfe, 0xff}` (STOP, RETURN, REVERT, INVALID,
SELFDESTRUCT). -/
def terminatingOpcode (b : Nat) : Bool :=
  b == 0x00 || b == 0xf3 || b == 0xfd || b == 0xfe || b == 0xff

/-- The inner `for` loop of the RJUMPV branch of source `checkOpcodes`:
reads `n` two-byte signed big-endian jump-table entries starting at
`jpos`, each target being `entry + finalPos`; every target is recorded in
`dests` and then bounds-checked (`none` = the loop returned `false`).
The reads are within bounds here because the caller has already checked
that the whole table precedes the last byte, so the `none` of
`readInt16BE` is unreachable. -/
def rjumpvTable (code : ByteCode) : Nat → Nat → Nat → Finset Int → Option (Finset Int)
  | _, 0, _, dests => some dests
  | jpos, n + 1, finalPos, dests =>
    match readInt16BE code jpos with
    | none => none
    | some off =>
      let target : Int := off + (finalPos : Int)
      let dests := insert target dests
      if target > (code.length : Int) - 1 ∨ target < 0 then none
      else rjumpvTable code (jpos + 2) n finalPos dests

/-- The `while (pos < code.length)` loop of source `checkOpcodes`.

`fuel` is a structural-recursion bound only: the cursor advances by at
least one byte per iteration, so the initial `code.length + 1` supplied
by `checkOpcodes` can never run out (the `fuel = 0` case is unreachable
from there).  `none` = the loop returned `false`; `some (imm, dests)` =
the loop exited normally with the accumulated immediate-offset and
jump-target sets.

One JS quirk is modelled in the RJUMPV branch: when the RJUMPV opcode is
the very last byte, `code[pos]` is `undefined`, the table-size arithmetic
produces `NaN`, every comparison with `NaN` is false, so no table entry
is processed and the `while` condition `NaN < code.length` exits the
loop; this is the `else` of the inner bounds test, exiting with the sets
unchanged (the subsequent terminating-opcode check then fails on the
RJUMPV byte). -/
def scanLoop (defined : Nat → Bool) (code : ByteCode) :
    Nat → Nat → Finset Int → Finset Int → Option (Finset Int × Finset Int)
  | 0, _, _, _ => none
  | fuel + 1, pos, imm, dests =>
    if pos < code.length then
      -- const opcode = code[pos]; pos++
      let opcode := code.getD pos 0
      let pos := pos + 1
      if allowedOpcode defined opcode = false then none
      else if 0x60 ≤ opcode ∧ opcode ≤ 0x7f then
        -- PUSH1..PUSH32: skip the data block, marking it immediate
        let finalPos := pos + (opcode - 0x5f)
        let imm := imm ∪ Finset.Ico (pos : Int) (finalPos : Int)
        if finalPos > code.length - 1 then none
        else scanLoop defined code fuel finalPos imm dests
      else if opcode = 0x5c ∨ opcode = 0x5d then
        -- RJUMP / RJUMPI
        let imm := insert ((pos : Int) + 1) (insert (pos : Int) imm)
        if pos + 2 > code.length - 1 then none
        else
          match readInt16BE code pos with
          | none => none
          | some off =>
            let target : Int := off + (pos : Int) + 2
            let dests := insert target dests
            if target > (code.length : Int) - 1 ∨ target < 0 then none
            else scanLoop defined code fuel (pos + 2) imm dests
      else if opcode = 0x5e then
        -- RJUMPV
        if pos < code.length then
          let tableSize := code.getD pos 0
          if tableSize = 0 then none
          else
            let jumptableSize := tableSize * 2
            if pos + jumptableSize + 1 > code.length - 1 then none
            else
              let finalPos := pos + 1 + jumptableSize
              let imm := imm ∪ Finset.Ico (pos : Int) (finalPos : Int)
              match rjumpvTable code (pos + 1) tableSize finalPos dests with
              | none => none
              | some dests => scanLoop defined code fuel finalPos imm dests
        else some (imm, dests)
      else scanLoop defined code fuel pos imm dests
    else some (imm, dests)

/-- Source `checkOpcodes` (EIP-3670 opcode validation): runs the scan
loop from offset 0 of the whole container, then checks the terminating
opcode of the final container byte, then checks that no recorded jump
target is an immediate offset. -/
def checkOpcodes (defined : Nat → Bool) (code : ByteCode) : Bool :=
  match scanLoop defined code (code.length + 1) 0 ∅ ∅ with
  | none => false
  | some (imm, dests) =>
    if terminatingOpcode (code.getD (code.length - 1) 256) = false then false
    else decide (∀ d ∈ dests, d ∉ imm)

/-- Result of one run of the type-section `for` loop in source
`validateCode`: an out-of-range asserting read threw (`exn`), a bounds
check returned `false` (`rej`), or the loop finished with the final
`currentBodyPos` (`ok`). -/
inductive TypeLoopRes : Type
  | exn : TypeLoopRes
  | rej : TypeLoopRes
  | ok : Nat → TypeLoopRes
deriving DecidableEq

/-- The type-section `for` loop of source `validateCode`: for each of the
`numTypeSections` entries, read `inputs` (u8, reject above 0x7f),
`outputs` (u8, reject above 0x7f) and `maxStackHeight` (u16 BE, reject
above 1023), advancing `currentBodyPos` by 4. -/
def typeSectionLoop (code : ByteCode) : Nat → Nat → TypeLoopRes
  | pos, 0 => .ok pos
  | pos, n + 1 =>
    match readUint8 code pos with
    | none => .exn
    | some inputs =>
      if inputs > 0x7f then .rej
      else
        match readUint8 code (pos + 1) with
        | none => .exn
        | some outputs =>
          if outputs > 0x7f then .rej
          else
            match readUint16BE code (pos + 2) with
            | none => .exn
            | some maxStackHeight =>
              if maxStackHeight > 1023 then .rej
              else typeSectionLoop code (pos + 4) n

/-- The code-size `for` loop of source `validateCode`:
`for (pos = 9; pos < 9 + 2*numCodeSections; pos += 2) codeSize += readUint16BE(pos)`,
here recursing over the number of sections with the cursor starting at 9. -/
def codeSizeLoop (code : ByteCode) : Nat → Nat → Option Nat
  | _, 0 => some 0
  | pos, n + 1 =>
    match readUint16BE code pos with
    | none => none
    | some s =>
      match codeSizeLoop code (pos + 2) n with
      | none => none
      | some rest => some (s + rest)

/-- Source `validateCode`, parametrized by the opcode table.  The local
names of the source are inlined:
`dataSectionMarkerIndex = 9 + 2*numCodeSections`,
`bodyStartPos = dataSectionMarkerIndex + 4`,
`numTypeSections = typeSectionSize / 4`. -/
def validateCode (defined : Nat → Bool) (code : ByteCode) : Option Bool :=
  if isEOFCode code = false then some true
  else if code.length ≤ 2 then some false
  else if code.getD 2 256 ≠ 0 then some false
  else if code.length < 15 then some false
  else if code.getD 3 256 ≠ KIND_TYPE then some false
  else
    match readUint16BE code 4 with
    | none => none
    | some typeSectionSize =>
      if typeSectionSize % 4 ≠ 0 then some false
      else if typeSectionSize < 4 then some false
      else if code.getD 6 256 ≠ KIND_CODE then some false
      else
        match readUint16BE code 7 with
        | none => none
        | some numCodeSections =>
          if numCodeSections > 1024 ∨ numCodeSections = 0 then some false
          else if typeSectionSize / 4 ≠ numCodeSections then some false
          else if code.length < 9 + 2 * numCodeSections then some false
          else if code.getD (9 + 2 * numCodeSections) 256 ≠ KIND_DATA then some false
          else if code.length < 9 + 2 * numCodeSections + 4 then some false
          else if code.getD (9 + 2 * numCodeSections + 3) 256 ≠ TERMINATOR then some false
          else
            match typeSectionLoop code (9 + 2 * numCodeSections + 4) (typeSectionSize / 4) with
            | .exn => none
            | .rej => some false
            | .ok currentBodyPos =>
              match codeSizeLoop code 9 numCodeSections with
              | none => none
              | some codeSize =>
                match readUint16BE code (9 + 2 * numCodeSections + 1) with
                | none => none
                | some dataSectionSize =>
                  if currentBodyPos + codeSize + dataSectionSize ≠ code.length - 1 then some false
                  else if checkOpcodes defined code = false then some false
                  else some true

/-- An opcode table in which every byte value is defined (used to witness
accepting runs; the real `handlers` table is external to this excerpt). -/
def allOpcodesDefined : Nat → Bool := fun _ => true

/-- The minimum EOF1 fixture of the spec: header (13 + 2 bytes), one all-zero
type entry, a single STOP code byte, empty data section. -/
def minEOF1 : ByteCode :=
  [0xef, 0x00, 0x01, 0x01, 0x00, 0x04, 0x02, 0x00, 0x01, 0x00, 0x01,
   0x03, 0x00, 0x00, 0x00, 0x00, 0x00, 0x00, 0x00, 0x00]

/-- C1: the minimum EOF1 fixture of the spec (version byte 0x01) is claimed to
be accepted, but `validateCode` rejects it for every opcode table: the
version check `version !== 0` accepts only version byte 0x00,
contradicting its own comment that only version 1 is supported. -/
theorem validateCode_rejects_minimum_eof1 :
    ∀ defined : Nat → Bool, validateCode defined minEOF1 = some false := by
  intro defined
  rfl

/-- A version-0 container that `validateCode` accepts when the opcode
table defines byte 0xEF: wire-identical to the minimum EOF1 fixture
except that the version byte is 0x00 and one extra trailing STOP byte
compensates the off-by-one of the length check. -/
def acceptedV0Stop : ByteCode :=
  [0xef, 0x00, 0x00, 0x01, 0x00, 0x04, 0x02, 0x00, 0x01, 0x00, 0x01,
   0x03, 0x00, 0x00, 0x00, 0x00, 0x00, 0x00, 0x00, 0x00, 0x00]

/-- A version-0 container with a 4-byte code section `5C 00 00 00`
(RJUMP +0 then STOP), accepted when the opcode table defines 0xEF; its
opcode pass records immediate offsets 20, 21 and jump target 22. -/
def acceptedV0Rjump : ByteCode :=
  [0xef, 0x00, 0x00, 0x01, 0x00, 0x04, 0x02, 0x00, 0x01, 0x00, 0x04,
   0x03, 0x00, 0x00, 0x00, 0x00, 0x00, 0x00, 0x00, 0x5c, 0x00, 0x00,
   0x00, 0x00]

/-- A version-0 container declaring two code sections (type section size
8) whose body holds only one 4-byte type entry: the second iteration of
the type-section loop reads at offset 21 = length and throws. -/
def truncatedTypes : ByteCode :=
  [0xef, 0x00, 0x00, 0x01, 0x00, 0x08, 0x02, 0x00, 0x02, 0x00, 0x00,
   0x00, 0x00, 0x03, 0x00, 0x00, 0x00, 0x00, 0x00, 0x00, 0x00]

/-- C3: the claim says every input with the EOF magic whose third byte
differs from 0x01 is rejected; but `validateCode` accepts the version-0
container `acceptedV0Stop` under an opcode table defining 0xEF.  The
version check `version !== 0` in the source accepts exactly version byte 0,
contradicting its comment that only version 1 is supported. -/
theorem validateCode_accepts_version_zero :
    isEOFCode acceptedV0Stop = true ∧
    acceptedV0Stop.getD 2 256 ≠ 0x01 ∧
    validateCode allOpcodesDefined acceptedV0Stop = some true := by
  refine ⟨by decide, by decide, by decide⟩

/-- C4: `validateCode` is claimed never to propagate an exception, with
all type-section reads staying below `len(code)`; but on
`truncatedTypes` the second type entry is read at offset 21 = length and
`readUint8` throws (modelled `none`), for every opcode table. -/
theorem validateCode_throws_on_truncated_types :
    ∀ defined : Nat → Bool, validateCode defined truncatedTypes = none := by
  intro defined
  rfl

/-- C7: any input that does not begin with the EOF magic EF 00 (in
particular any input shorter than two bytes) is passed through:
`validateCode` returns true unconditionally. -/
theorem validateCode_legacy_passthrough :
    ∀ (defined : Nat → Bool) (code : ByteCode),
      isEOFCode code = false → validateCode defined code = some true := by
  intro defined code h
  unfold validateCode
  rw [h]
  simp

/-- Witness for C7 at the legacy fixture of the spec, namely `60 00 60 00 F3`. -/
theorem validateCode_legacy_passthrough_witness :
    isEOFCode [0x60, 0x00, 0x60, 0x00, 0xf3] = false ∧
    validateCode allOpcodesDefined [0x60, 0x00, 0x60, 0x00, 0xf3] = some true :=
  ⟨by decide, validateCode_legacy_passthrough allOpcodesDefined _ (by decide)⟩

/-- C8 counterexample: the claimed equivalence
`isEOFCode code ↔ getEOFVersion code = code[2]` fails on `[0, 0, 0]`,
whose version probe returns 0 and whose third byte is 0 although the
magic is absent. -/
theorem version_probe_iff_fails :
    ¬ ((isEOFCode [0, 0, 0] = true) ↔
        (getEOFVersion [0, 0, 0] = [0, 0, 0].get? 2)) := by
  decide

/-- C8 amended: the forward direction holds — for EOF inputs the version
probe returns `code[2]` (undefined when absent), and non-EOF inputs
yield 0; the converse direction is false (see the counterexample). -/
theorem version_probe_consistency :
    ∀ code : ByteCode,
      (isEOFCode code = true → getEOFVersion code = code.get? 2) ∧
      (isEOFCode code = false → getEOFVersion code = some 0) := by
  intro code
  constructor
  · intro h
    unfold getEOFVersion
    rw [h]
    simp
  · intro h
    unfold getEOFVersion
    rw [h]
    simp

/-- Witness for C8 amended, at an EOF input (version byte 5) and a
non-EOF input. -/
theorem version_probe_consistency_witness :
    getEOFVersion [0xef, 0x00, 0x05] = [0xef, 0x00, 0x05].get? 2 ∧
    getEOFVersion [0, 0, 0] = some 0 :=
  ⟨(version_probe_consistency [0xef, 0x00, 0x05]).1 (by decide),
   (version_probe_consistency [0, 0, 0]).2 (by decide)⟩

/-- The type-section loop advances `currentBodyPos` by exactly 4 bytes
per entry when it completes. -/
lemma typeSectionLoop_ok (code : ByteCode) :
    ∀ (n pos p : Nat), typeSectionLoop code pos n = TypeLoopRes.ok p →
      p = pos + 4 * n := by
  intro n
  induction n with
  | zero =>
    intro pos p h
    simp only [typeSectionLoop] at h
    injection h with h
    omega
  | succ n ih =>
    intro pos p h
    simp only [typeSectionLoop] at h
    split at h
    · exact TypeLoopRes.noConfusion h
    split at h
    · exact TypeLoopRes.noConfusion h
    split at h
    · exact TypeLoopRes.noConfusion h
    split at h
    · exact TypeLoopRes.noConfusion h
    split at h
    · exact TypeLoopRes.noConfusion h
    split at h
    · exact TypeLoopRes.noConfusion h
    have := ih (pos + 4) p h
    omega

/-- Anatomy of an accepting run of `validateCode` on an EOF-magic input:
the container is at least 15 bytes, the opcode pass succeeded, and the
declared sizes satisfy the length check
`currentBodyPos + codeSize + dataSectionSize == code.length - 1`. -/
lemma validateCode_ok_spec (defined : Nat → Bool) (code : ByteCode)
    (he : isEOFCode code = true) (h : validateCode defined code = some true) :
    15 ≤ code.length ∧ checkOpcodes defined code = true ∧
    ∃ tss ncs cs ds,
      readUint16BE code 4 = some tss ∧
      readUint16BE code 7 = some ncs ∧
      codeSizeLoop code 9 ncs = some cs ∧
      readUint16BE code (9 + 2 * ncs + 1) = some ds ∧
      tss + cs + ds + (13 + 2 * ncs) + 1 = code.length := by
  unfold validateCode at h
  rw [he] at h
  rw [if_neg (fun hc => Bool.noConfusion hc)] at h
  by_cases h2 : code.length ≤ 2
  · rw [if_pos h2] at h; simp at h
  rw [if_neg h2] at h
  by_cases h3 : code.getD 2 256 ≠ 0
  · rw [if_pos h3] at h; simp at h
  rw [if_neg h3] at h
  by_cases h4 : code.length < 15
  · rw [if_pos h4] at h; simp at h
  rw [if_neg h4] at h
  by_cases h5 : code.getD 3 256 ≠ KIND_TYPE
  · rw [if_pos h5] at h; simp at h
  rw [if_neg h5] at h
  cases htss : readUint16BE code 4 with
  | none => rw [htss] at h; simp at h
  | some tss =>
  rw [htss] at h
  simp only [] at h
  by_cases hmod : tss % 4 ≠ 0
  · rw [if_pos hmod] at h; simp at h
  rw [if_neg hmod] at h
  by_cases h7 : tss < 4
  · rw [if_pos h7] at h; simp at h
  rw [if_neg h7] at h
  by_cases h8 : code.getD 6 256 ≠ KIND_CODE
  · rw [if_pos h8] at h; simp at h
  rw [if_neg h8] at h
  cases hncs : readUint16BE code 7 with
  | none => rw [hncs] at h; simp at h
  | some ncs =>
  rw [hncs] at h
  simp only [] at h
  by_cases h9 : ncs > 1024 ∨ ncs = 0
  · rw [if_pos h9] at h; simp at h
  rw [if_neg h9] at h
  by_cases h10 : tss / 4 ≠ ncs
  · rw [if_pos h10] at h; simp at h
  rw [if_neg h10] at h
  by_cases h11 : code.length < 9 + 2 * ncs
  · rw [if_pos h11] at h; simp at h
  rw [if_neg h11] at h
  by_cases h12 : code.getD (9 + 2 * ncs) 256 ≠ KIND_DATA
  · rw [if_pos h12] at h; simp at h
  rw [if_neg h12] at h
  by_cases h13 : code.length < 9 + 2 * ncs + 4
  · rw [if_pos h13] at h; simp at h
  rw [if_neg h13] at h
  by_cases h14 : code.getD (9 + 2 * ncs + 3) 256 ≠ TERMINATOR
  · rw [if_pos h14] at h; simp at h
  rw [if_neg h14] at h
  cases hcbp : typeSectionLoop code (9 + 2 * ncs + 4) (tss / 4) with
  | exn => rw [hcbp] at h; simp at h
  | rej => rw [hcbp] at h; simp at h
  | ok cbp =>
  rw [hcbp] at h
  simp only [] at h
  cases hcs : codeSizeLoop code 9 ncs with
  | none => rw [hcs] at h; simp at h
  | some cs =>
  rw [hcs] at h
  simp only [] at h
  cases hds : readUint16BE code (9 + 2 * ncs + 1) with
  | none => rw [hds] at h; simp at h
  | some ds =>
  rw [hds] at h
  simp only [] at h
  by_cases h15 : cbp + cs + ds ≠ code.length - 1
  · rw [if_pos h15] at h; simp at h
  rw [if_neg h15] at h
  by_cases h16 : checkOpcodes defined code = false
  · rw [if_pos h16] at h; simp at h
  rw [if_neg h16] at h
  have hcbp4 := typeSectionLoop_ok code (tss / 4) (9 + 2 * ncs + 4) cbp hcbp
  refine ⟨by omega, by simpa using h16, tss, ncs, cs, ds, rfl, rfl, hcs, hds, by omega⟩

/-- Anatomy of a successful `checkOpcodes` run: the scan loop exited
normally, the final byte is a terminating opcode, and no recorded jump
target is an immediate offset. -/
lemma checkOpcodes_ok (defined : Nat → Bool) (code : ByteCode)
    (h : checkOpcodes defined code = true) :
    ∃ imm dests,
      scanLoop defined code (code.length + 1) 0 ∅ ∅ = some (imm, dests) ∧
      terminatingOpcode (code.getD (code.length - 1) 256) = true ∧
      ∀ t ∈ dests, t ∉ imm := by
  unfold checkOpcodes at h
  split at h
  · exact Bool.noConfusion h
  rename_i imm dests hscan
  split at h
  · exact Bool.noConfusion h
  rename_i hterm
  exact ⟨imm, dests, hscan, by simpa using hterm, of_decide_eq_true h⟩

/-- C2 counterexample: `acceptedV0Rjump` is accepted (under an opcode
table defining 0xEF) and begins with the EOF magic, yet its declared
sizes (type 4 + code 4 + data 0) differ from `len(code)` minus the
header length 13 + 2·1: the check at the source requires
`currentBodyPos == code.length - 1`, one byte short of the container
end. -/
theorem declared_length_exact_equality_fails :
    validateCode allOpcodesDefined acceptedV0Rjump = some true ∧
    isEOFCode acceptedV0Rjump = true ∧
    readUint16BE acceptedV0Rjump 4 = some 4 ∧
    readUint16BE acceptedV0Rjump 7 = some 1 ∧
    codeSizeLoop acceptedV0Rjump 9 1 = some 4 ∧
    readUint16BE acceptedV0Rjump (9 + 2 * 1 + 1) = some 0 ∧
    4 + 4 + 0 ≠ acceptedV0Rjump.length - (13 + 2 * 1) := by
  refine ⟨by decide, by decide, by decide, by decide, by decide, by decide, by decide⟩

/-- C2 amended: on every accepted EOF-magic input the declared body
length falls one byte short of the actual remainder:
`type_section_size + Σ code_section_sizes + data_section_size + 1`
equals `len(code)` minus the header length `13 + 2·num_code_sections`
(stated additively to avoid truncated subtraction). -/
theorem declared_length_matches_remainder_minus_one :
    ∀ (defined : Nat → Bool) (code : ByteCode),
      validateCode defined code = some true → isEOFCode code = true →
      ∃ tss ncs cs ds,
        readUint16BE code 4 = some tss ∧
        readUint16BE code 7 = some ncs ∧
        codeSizeLoop code 9 ncs = some cs ∧
        readUint16BE code (9 + 2 * ncs + 1) = some ds ∧
        tss + cs + ds + (13 + 2 * ncs) + 1 = code.length := by
  intro defined code h he
  exact (validateCode_ok_spec defined code he h).2.2

/-- Witness for the amended C2 at the accepted container
`acceptedV0Rjump`. -/
theorem declared_length_matches_remainder_minus_one_witness :
    ∃ tss ncs cs ds,
      readUint16BE acceptedV0Rjump 4 = some tss ∧
      readUint16BE acceptedV0Rjump 7 = some ncs ∧
      codeSizeLoop acceptedV0Rjump 9 ncs = some cs ∧
      readUint16BE acceptedV0Rjump (9 + 2 * ncs + 1) = some ds ∧
      tss + cs + ds + (13 + 2 * ncs) + 1 = acceptedV0Rjump.length :=
  declared_length_matches_remainder_minus_one allOpcodesDefined acceptedV0Rjump
    (by decide) (by decide)

/-- Every jump target recorded by the RJUMPV jump-table loop is either
inherited from the initial set or bounds-checked into
`[0, code.length - 1]`. -/
lemma rjumpvTable_bound (code : ByteCode) :
    ∀ (n jpos finalPos : Nat) (dests0 dests : Finset Int),
      rjumpvTable code jpos n finalPos dests0 = some dests →
      ∀ t ∈ dests, t ∈ dests0 ∨ (0 ≤ t ∧ t ≤ (code.length : Int) - 1) := by
  intro n
  induction n with
  | zero =>
    intro jpos finalPos dests0 dests h t ht
    simp only [rjumpvTable] at h
    injection h with h
    subst h
    exact Or.inl ht
  | succ n ih =>
    intro jpos finalPos dests0 dests h t ht
    simp only [rjumpvTable] at h
    split at h
    · exact Option.noConfusion h
    rename_i off hoff
    split at h
    · exact Option.noConfusion h
    rename_i htb
    have h2 := ih (jpos + 2) finalPos _ dests h t ht
    rcases h2 with hmem | hb
    · rcases Finset.mem_insert.mp hmem with rfl | h0
      · push_neg at htb
        exact Or.inr ⟨htb.2, htb.1⟩
      · exact Or.inl h0
    · exact Or.inr hb

/-- Every jump target accumulated by the scan loop is either inherited
from the initial set or was bounds-checked into `[0, code.length - 1]`
at the moment it was recorded. -/
lemma scanLoop_dests_bound (defined : Nat → Bool) (code : ByteCode) :
    ∀ (fuel pos : Nat) (imm0 dests0 imm dests : Finset Int),
      scanLoop defined code fuel pos imm0 dests0 = some (imm, dests) →
      ∀ t ∈ dests, t ∈ dests0 ∨ (0 ≤ t ∧ t ≤ (code.length : Int) - 1) := by
  intro fuel
  induction fuel with
  | zero =>
    intro pos imm0 dests0 imm dests h
    exact Option.noConfusion h
  | succ fuel ih =>
    intro pos imm0 dests0 imm dests h t ht
    simp only [scanLoop] at h
    split at h
    case isFalse =>
      injection h with hpair
      injection hpair with e1 e2
      subst e1
      subst e2
      exact Or.inl ht
    case isTrue hp =>
      split at h
      · exact Option.noConfusion h
      split at h
      case isTrue hpush =>
        split at h
        · exact Option.noConfusion h
        exact ih _ _ _ _ _ h t ht
      case isFalse hnp =>
        split at h
        case isTrue hrj =>
          split at h
          · exact Option.noConfusion h
          split at h
          · exact Option.noConfusion h
          rename_i off hoff
          split at h
          case isTrue => exact Option.noConfusion h
          case isFalse htb =>
            have h2 := ih _ _ _ _ _ h t ht
            rcases h2 with hmem | hb
            · rcases Finset.mem_insert.mp hmem with rfl | h0
              · push_neg at htb
                exact Or.inr ⟨htb.2, htb.1⟩
              · exact Or.inl h0
            · exact Or.inr hb
        case isFalse hnrj =>
          split at h
          case isTrue h5e =>
            split at h
            case isTrue hp2 =>
              split at h
              · exact Option.noConfusion h
              split at h
              · exact Option.noConfusion h
              split at h
              · exact Option.noConfusion h
              rename_i dests1 hrj
              have h2 := ih _ _ _ _ _ h t ht
              rcases h2 with hmem | hb
              · exact rjumpvTable_bound code _ _ _ _ _ hrj t hmem
              · exact Or.inr hb
            case isFalse =>
              injection h with hpair
              injection hpair with e1 e2
              subst e1
              subst e2
              exact Or.inl ht
          case isFalse =>
            exact ih _ _ _ _ _ h t ht

/-- C5: on every accepted EOF-magic input, every jump target recorded by
the opcode pass lies within the code stream (`0 ≤ t ≤ len - 1`) and is
not an immediate offset (an operand byte of PUSH, RJUMP, RJUMPI or
RJUMPV). -/
theorem jump_targets_within_code_not_immediate :
    ∀ (defined : Nat → Bool) (code : ByteCode) (imm dests : Finset Int),
      validateCode defined code = some true → isEOFCode code = true →
      scanLoop defined code (code.length + 1) 0 ∅ ∅ = some (imm, dests) →
      ∀ t ∈ dests, 0 ≤ t ∧ t ≤ (code.length : Int) - 1 ∧ t ∉ imm := by
  intro defined code imm dests h he hscan t ht
  obtain ⟨-, hchk, -⟩ := validateCode_ok_spec defined code he h
  obtain ⟨imm2, dests2, hscan2, hterm, hcross⟩ := checkOpcodes_ok defined code hchk
  rw [hscan] at hscan2
  injection hscan2 with hpair
  injection hpair with e1 e2
  subst e1
  subst e2
  have hb := scanLoop_dests_bound defined code (code.length + 1) 0 ∅ ∅ imm dests hscan t ht
  rcases hb with hmem | hb
  · exact absurd hmem (Finset.not_mem_empty t)
  · exact ⟨hb.1, hb.2, hcross t ht⟩

/-- Witness for C5 at the accepted container `acceptedV0Rjump`, whose
scan records immediates 20, 21 and the single jump target 22. -/
theorem jump_targets_within_code_not_immediate_witness :
    (0 : Int) ≤ 22 ∧ (22 : Int) ≤ (acceptedV0Rjump.length : Int) - 1 ∧
      (22 : Int) ∉ ({21, 20} : Finset Int) :=
  jump_targets_within_code_not_immediate allOpcodesDefined acceptedV0Rjump
    {21, 20} {22} (by decide) (by decide) (by decide) 22 (by decide)

/-- C6: on every accepted EOF-magic input the final container byte is a
terminating opcode (STOP, RETURN, REVERT, INVALID or SELFDESTRUCT); and
any byte scanned as an opcode that equals 0xFF (SELFDESTRUCT) makes the
scan loop reject on the spot, for every opcode table. -/
theorem terminator_rule_and_selfdestruct_scan :
    ∀ (defined : Nat → Bool) (code : ByteCode),
      (validateCode defined code = some true → isEOFCode code = true →
        terminatingOpcode (code.getD (code.length - 1) 256) = true) ∧
      (∀ (fuel pos : Nat) (imm dests : Finset Int),
        pos < code.length → code.getD pos 0 = 0xff →
        scanLoop defined code (fuel + 1) pos imm dests = none) := by
  intro defined code
  refine ⟨?_, ?_⟩
  · intro h he
    obtain ⟨-, hchk, -⟩ := validateCode_ok_spec defined code he h
    obtain ⟨imm, dests, -, hterm, -⟩ := checkOpcodes_ok defined code hchk
    exact hterm
  · intro fuel pos imm dests hlt hff
    simp only [scanLoop]
    rw [if_pos hlt, hff]
    simp [allowedOpcode]

/-- Witness for C6: the accepted container ends in STOP, and a scan
visiting a 0xFF opcode byte rejects. -/
theorem terminator_rule_and_selfdestruct_scan_witness :
    terminatingOpcode (acceptedV0Rjump.getD (acceptedV0Rjump.length - 1) 256) = true ∧
    scanLoop allOpcodesDefined [0xff, 0x00] 1 0 ∅ ∅ = none :=
  ⟨(terminator_rule_and_selfdestruct_scan allOpcodesDefined acceptedV0Rjump).1
      (by decide) (by decide),
   (terminator_rule_and_selfdestruct_scan allOpcodesDefined [0xff, 0x00]).2 0 0 ∅ ∅
      (by decide) (by decide)⟩

/-- C9: the opcode pass starts at container offset 0, so byte 0 (the
0xEF of the magic) is scanned as an opcode; for every opcode table not
defining 0xEF, every EOF-magic input fails the opcode pass and is never
accepted. -/
theorem eof_rejected_when_ef_undefined :
    ∀ (defined : Nat → Bool) (code : ByteCode),
      defined 0xef = false → isEOFCode code = true →
      validateCode defined code ≠ some true := by
  intro defined code hd he h
  obtain ⟨hlen, hchk, -⟩ := validateCode_ok_spec defined code he h
  obtain ⟨imm, dests, hscan, -, -⟩ := checkOpcodes_ok defined code hchk
  have h0 : code.getD 0 0 = 0xef := by
    have htake : code.take 2 = [0xef, 0x00] := eq_of_beq he
    cases code with
    | nil => simp at htake
    | cons a tail =>
      cases tail with
      | nil => simp at htake
      | cons b tail2 =>
        simp at htake
        simp [htake.1]
  simp only [scanLoop] at hscan
  rw [if_pos (by omega : 0 < code.length), h0] at hscan
  simp [allowedOpcode, hd] at hscan

/-- Witness for C9: with the empty opcode table, the minimum EOF1
fixture (which begins with the magic) is not accepted. -/
theorem eof_rejected_when_ef_undefined_witness :
    validateCode (fun _ => false) minEOF1 ≠ some true :=
  eof_rejected_when_ef_undefined (fun _ => false) minEOF1 rfl (by decide)

/-- C10: the immediate bounds checks are strict by one byte.  Whenever a
scanned PUSH operand, RJUMP/RJUMPI immediate pair, or RJUMPV
jump-table block ends exactly at the final container byte, the
scan loop rejects: every immediate must be followed by at least one more
byte. -/
theorem immediate_must_precede_final_byte :
    ∀ (defined : Nat → Bool) (code : ByteCode) (fuel pos : Nat)
      (imm dests : Finset Int) (op : Nat),
      pos < code.length → code.getD pos 0 = op →
      ((0x60 ≤ op ∧ op ≤ 0x7f ∧ pos + 1 + (op - 0x5f) = code.length) ∨
       ((op = 0x5c ∨ op = 0x5d) ∧ pos + 3 = code.length) ∨
       (op = 0x5e ∧ pos + 2 + 2 * code.getD (pos + 1) 0 = code.length)) →
      scanLoop defined code (fuel + 1) pos imm dests = none := by
  intro defined code fuel pos imm dests op hlt hop hcase
  simp only [scanLoop]
  rw [if_pos hlt, hop]
  by_cases ha : allowedOpcode defined op = false
  · rw [if_pos ha]
  rw [if_neg ha]
  rcases hcase with ⟨hp1, hp2, hp3⟩ | ⟨hrj, hr3⟩ | ⟨h5e, hv3⟩
  · rw [if_pos (And.intro hp1 hp2)]
    rw [if_pos (show pos + 1 + (op - 0x5f) > code.length - 1 by omega)]
  · rw [if_neg (show ¬(0x60 ≤ op ∧ op ≤ 0x7f) by rcases hrj with rfl | rfl <;> omega)]
    rw [if_pos hrj]
    rw [if_pos (show pos + 1 + 2 > code.length - 1 by omega)]
  · subst h5e
    rw [if_neg (by omega : ¬((0x60 : Nat) ≤ 0x5e ∧ (0x5e : Nat) ≤ 0x7f))]
    rw [if_neg (by omega : ¬((0x5e : Nat) = 0x5c ∨ (0x5e : Nat) = 0x5d))]
    rw [if_pos (rfl : (0x5e : Nat) = 0x5e)]
    rw [if_pos (show pos + 1 < code.length by omega)]
    by_cases hts : code.getD (pos + 1) 0 = 0
    · rw [if_pos hts]
    rw [if_neg hts]
    rw [if_pos (show pos + 1 + code.getD (pos + 1) 0 * 2 + 1 > code.length - 1 by omega)]

/-- Witness for C10: a PUSH1 whose operand is the final byte, an RJUMP
whose offset pair ends at the final byte, and an RJUMPV whose table ends
at the final byte are each rejected. -/
theorem immediate_must_precede_final_byte_witness :
    scanLoop allOpcodesDefined [0x60, 0xaa] 1 0 ∅ ∅ = none ∧
    scanLoop allOpcodesDefined [0x5c, 0x00, 0x00] 1 0 ∅ ∅ = none ∧
    scanLoop allOpcodesDefined [0x5e, 0x02, 0x00, 0x00, 0x00, 0x00] 1 0 ∅ ∅ = none :=
  ⟨immediate_must_precede_final_byte allOpcodesDefined [0x60, 0xaa] 0 0 ∅ ∅ 0x60
      (by decide) (by decide) (by decide),
   immediate_must_precede_final_byte allOpcodesDefined [0x5c, 0x00, 0x00] 0 0 ∅ ∅ 0x5c
      (by decide) (by decide) (by decide),
   immediate_must_precede_final_byte allOpcodesDefined
      [0x5e, 0x02, 0x00, 0x00, 0x00, 0x00] 0 0 ∅ ∅ 0x5e
      (by decide) (by decide) (by decide)⟩
